import Mathlib

/-!
Shallow embedding of `src/modelagem.py`, a linear train/predict/export
pipeline: load a table, split rows into train/test with a fixed seed,
train a ranked list of regression models, aggregate per-model predictions
next to the identifiers and the observed target, and write the two
prediction tables as semicolon-delimited text files.

Tables are modelled columnar, as pandas holds them: an ordered list of
named columns. Library calls that live outside this repository
(`sklearn.train_test_split`, pycaret's `predict_model`, pandas `to_csv`)
are modelled from the spec where marked.
-/

namespace Modelagem

/-- A named column, the model of a pandas Series carried inside a frame. -/
structure Column (α : Type) where
  name : String
  values : List α
deriving Repr, DecidableEq

/-- Shallow model of a pandas DataFrame: an ordered list of named columns. -/
structure DataFrame (α : Type) where
  cols : List (Column α)
deriving Repr, DecidableEq

namespace DataFrame

/-- Number of columns of the frame. -/
def ncols (df : DataFrame α) : Nat := df.cols.length

/-- Number of rows: the length of the first column (0 for a column-less frame). -/
def nrows (df : DataFrame α) : Nat :=
  match df.cols with
  | [] => 0
  | c :: _ => c.values.length

/-- The column names, in frame order. -/
def colNames (df : DataFrame α) : List String := df.cols.map (·.name)

/-- The frame is rectangular: every column holds exactly `n` values. -/
def Rect (df : DataFrame α) (n : Nat) : Prop :=
  ∀ c ∈ df.cols, c.values.length = n

instance (df : DataFrame α) (n : Nat) : Decidable (df.Rect n) :=
  List.decidableBAll _ df.cols

/-- Column lookup by name (`data["x"]`), `none` when pandas would raise `KeyError`. -/
def getCol? (df : DataFrame α) (n : String) : Option (Column α) :=
  df.cols.find? (fun c => c.name == n)

/-- The named columns in the requested order, `none` as soon as one is missing. -/
def getCols? (df : DataFrame α) : List String → Option (List (Column α))
  | [] => some []
  | n :: ns =>
    match df.getCol? n, df.getCols? ns with
    | some c, some cs => some (c :: cs)
    | _, _ => none

/-- Column-list selection (`data[[n1, n2, ...]]`): the named columns in the
requested order, `none` when any is missing. -/
def selectCols? (df : DataFrame α) (names : List String) : Option (DataFrame α) :=
  (df.getCols? names).map DataFrame.mk

end DataFrame

/-! ## Substring matching, the model of Python's `like in label` used by
`DataFrame.filter(like=...)`. -/

/-- `startsWithSeq needle hay`: `hay` begins with `needle`. -/
def startsWithSeq : List Char → List Char → Bool
  | [], _ => true
  | _ :: _, [] => false
  | a :: as, b :: bs => a == b && startsWithSeq as bs

/-- `containsSub needle hay`: `needle` occurs contiguously inside `hay`. -/
def containsSub (needle : List Char) : List Char → Bool
  | [] => startsWithSeq needle []
  | b :: bs => startsWithSeq needle (b :: bs) || containsSub needle bs

/-- Python's `sub in s` on strings. -/
def strContains (needle s : String) : Bool := containsSub needle.data s.data

/-! ## The splitter (`train_test_split(dados_select, test_size=0.3, random_state=42)`) -/

/-- A deterministic pseudo-random step keyed by the seed (linear congruential). -/
def lcg (s : Nat) : Nat := (1103515245 * s + 12345) % 2 ^ 31

/-- Fuel-indexed pick-and-remove shuffle: repeatedly pick the position given by
the generator and remove it. With fuel `xs.length` it permutes `xs`. -/
def shuffleGo : Nat → Nat → List α → List α
  | 0, _, _ => []
  | fuel + 1, s, xs =>
    match xs with
    | [] => []
    | y :: ys =>
      (y :: ys).get ⟨lcg s % (y :: ys).length, Nat.mod_lt _ (Nat.succ_pos _)⟩ ::
        shuffleGo fuel (lcg s) ((y :: ys).eraseIdx (lcg s % (y :: ys).length))

/-- Modelled from the spec: the splitter's row assignment is "randomized but
deterministic for a given seed" — a seed-keyed permutation of the rows. -/
def shuffleRows (seed : Nat) (xs : List α) : List α := shuffleGo xs.length seed xs

/-- Modelled from the spec: `sklearn.model_selection.train_test_split` with
`test_size=0.3` draws a seed-determined permutation of the rows, takes
`ceil(0.3 * n)` of them as the test subset and the remaining rows as the train
subset, and returns `(train, test)`. `(3 * n + 9) / 10` is `ceil(3n/10)` in
`Nat` arithmetic. -/
def train_test_split (data : List α) (seed : Nat) : List α × List α :=
  let shuffled := shuffleRows seed data
  let nTest := (3 * data.length + 9) / 10
  (shuffled.drop nTest, shuffled.take nTest)

/-! ## Script constants (`vary`, `folder_save`, `type_save`, output paths) -/

/-- The target variable (`vary = "Umidade"`). -/
def vary : String := "Umidade"

/-- Output folder name (`folder_save = "u10_u60"`). -/
def folder_save : String := "u10_u60"

/-- Type suffix for saved files (`type_save = "_week_" + vary`). -/
def type_save : String := "_week_" ++ vary

/-- Destination of the test-set predictions
(`"./resultados/" + folder_save + "/test_predict" + type_save + ".csv"`). -/
def test_path : String := "./resultados/" ++ folder_save ++ "/test_predict" ++ type_save ++ ".csv"

/-- Destination of the train-set predictions. -/
def train_path : String := "./resultados/" ++ folder_save ++ "/train_predict" ++ type_save ++ ".csv"

/-! ## The prediction aggregator (`extract_pred_classe`, `unite_predicts_models`) -/

/-- Modelled from the spec: a trained model is an "opaque artifact ... with the
capability to produce a prediction column given a dataset" — here, the list of
predicted values, one per row of the given dataset. -/
structure Model (α : Type) where
  predictRow : DataFrame α → List α

/-- Modelled from the spec: pycaret's `predict_model(model, data)` returns the
input data's columns with the model's "single new column containing that
model's predicted target value for every row" appended, named
`"prediction_label"`; the result is "a table searched by string pattern" by the
caller, so the input columns travel with it. -/
def predict_model (model : Model α) (data : DataFrame α) : DataFrame α :=
  ⟨data.cols ++ [⟨"prediction_label", model.predictRow data⟩]⟩

/-- pandas `DataFrame.filter(like=...)`: keep exactly the columns whose name
contains `like` as a substring, in their original order. -/
def filterLike (like : String) (df : DataFrame α) : DataFrame α :=
  ⟨df.cols.filter (fun c => strContains like c.name)⟩

/-- `extract_pred_classe(model, data, name_model)`: predict with the model,
keep only the prediction columns (`filter(like='predic')`) and rename each to
`name_model + "_" + old name`. -/
def extract_pred_classe (model : Model α) (data : DataFrame α) (name_model : String) :
    DataFrame α :=
  let predictions := filterLike "predic" (predict_model model data)
  ⟨predictions.cols.map (fun c => ⟨name_model ++ "_" ++ c.name, c.values⟩)⟩

/-- The `isinstance(col_name_id, str)` normalization at the top of
`unite_predicts_models`: a bare string is wrapped into a one-element list. -/
def idList : String ⊕ List String → List String
  | Sum.inl s => [s]
  | Sum.inr l => l

/-- The `for i, model in enumerate(models_predict)` loop body: pair each model
positionally with `names_models[i]` and extract its renamed prediction columns;
`none` models the `KeyError` when the names run out before the models. -/
def predFrames? (data : DataFrame α) : List (Model α) → List String → Option (List (DataFrame α))
  | [], _ => some []
  | _ :: _, [] => none
  | m :: ms, nm :: nms =>
    (predFrames? data ms nms).map (fun rest => extract_pred_classe m data nm :: rest)

/-- `unite_predicts_models(models_predict, data, col_name_target, col_name_id,
names_models)`: the identifier columns in the given order, then the observed
target column, then every model's renamed prediction columns in model order
(`pd.concat([data[col_name_id]] + [data[col_name_target]] + predictions, axis=1)`).
`none` models the `KeyError` raised when a requested column or name is missing. -/
def unite_predicts_models (models_predict : List (Model α)) (data : DataFrame α)
    (col_name_target : String) (col_name_id : String ⊕ List String)
    (names_models : List String) : Option (DataFrame α) := do
  let idDf ← data.selectCols? (idList col_name_id)
  let targetCol ← data.getCol? col_name_target
  let preds ← predFrames? data models_predict names_models
  pure ⟨idDf.cols ++ targetCol :: (preds.map DataFrame.cols).flatten⟩

/-- No column of the frame has a name containing the marker substring
`"predic"`; the script's own columns (`Time`, `ID`, `Umidade`, the predictors,
the categoricals) all satisfy this. -/
def NoPredCols (df : DataFrame α) : Prop :=
  ∀ c ∈ df.cols, strContains "predic" c.name = false

instance (df : DataFrame α) : Decidable (NoPredCols df) :=
  List.decidableBAll _ df.cols

/-! ## The exporter (`to_csv(path, index=False, sep=";")`), modelled at the
character level so the written file can be parsed back. -/

/-- Join chunks with a separator character between consecutive chunks. -/
def joinSep (sep : Char) : List (List Char) → List Char
  | [] => []
  | [x] => x
  | x :: y :: r => x ++ sep :: joinSep sep (y :: r)

/-- Split a character stream at every occurrence of the separator. -/
def splitSep (sep : Char) : List Char → List (List Char)
  | [] => [[]]
  | x :: xs =>
    if x = sep then [] :: splitSep sep xs
    else
      match splitSep sep xs with
      | [] => [[x]]
      | f :: r => (x :: f) :: r

/-- The first `n` rows of a column-major value matrix, row by row. -/
def rowsGo : Nat → List (List α) → List (List α)
  | 0, _ => []
  | n + 1, cols => cols.filterMap (·.head?) :: rowsGo n (cols.map (·.tail))

/-- The cell rows of a frame, in row order (header excluded). -/
def rowsOf (df : DataFrame String) : List (List (List Char)) :=
  rowsGo df.nrows (df.cols.map (fun c => c.values.map String.data))

/-- Modelled from the spec: pandas `to_csv(path, index=False, sep=";")` writes
"a delimited text file with a header row and no row-index column" — one header
line of the column names and one line per row, fields separated by `';'`,
lines separated by `'\n'`. -/
def to_csv (df : DataFrame String) : String :=
  String.mk (joinSep '\n'
    (joinSep ';' (df.cols.map (fun c => c.name.data)) :: (rowsOf df).map (joinSep ';')))

/-- The frame's names and cells are free of the two delimiter characters, so
its delimited text is unambiguous. -/
def CsvSafe (df : DataFrame String) : Prop :=
  (∀ c ∈ df.cols, ';' ∉ c.name.data ∧ '\n' ∉ c.name.data) ∧
  (∀ c ∈ df.cols, ∀ v ∈ c.values, ';' ∉ v.data ∧ '\n' ∉ v.data)

instance (df : DataFrame String) : Decidable (CsvSafe df) :=
  inferInstanceAs (Decidable ((∀ c ∈ df.cols, ';' ∉ c.name.data ∧ '\n' ∉ c.name.data) ∧
    (∀ c ∈ df.cols, ∀ v ∈ c.values, ';' ∉ v.data ∧ '\n' ∉ v.data)))

/-- Rebuild a frame from split lines: the first line gives the column names,
the remaining lines the cell rows. -/
def parseTable : List (List Char) → Option (DataFrame String)
  | [] => none
  | header :: rowLines =>
    some ⟨(List.range (splitSep ';' header).length).map (fun j =>
      ⟨String.mk ((splitSep ';' header).getD j []),
        (rowLines.map (splitSep ';')).map (fun r => String.mk (r.getD j []))⟩)⟩

/-- Reading the delimited text back. -/
def readCsv (s : String) : Option (DataFrame String) :=
  parseTable (splitSep '\n' s.data)

/-! ## The run as a whole (load → split → train → predict → export) -/

/-- The straight-line script: each stage either yields a value or raises, and a
raise aborts the whole run. The success value lists the files written, in write
order — both prediction tables are computed before the first write happens, as
in the source (lines 137–138 before lines 141–142). -/
def runPipeline (load : Except ε δ) (split : δ → Except ε (δ × δ))
    (train : δ → Except ε μ) (unite : μ → δ → Except ε τ) :
    Except ε (List (String × τ)) :=
  Except.bind load (fun dados =>
    Except.bind (split dados) (fun both =>
      Except.bind (train both.1) (fun models =>
        Except.bind (unite models both.2) (fun results_test =>
          Except.bind (unite models both.1) (fun results_train =>
            Except.ok [(test_path, results_test), (train_path, results_train)])))))

/-- The files a run leaves behind: none when any stage raised. -/
def filesWritten : Except ε (List (String × τ)) → List (String × τ)
  | Except.error _ => []
  | Except.ok l => l

/-! ## Concrete frames and models used as witnesses and counterexamples -/

/-- A model predicting 0 for every row, used in concrete instantiations. -/
def mConst : Model Nat := ⟨fun df => List.replicate df.nrows 0⟩

/-- A model used on two-row frames; it predicts 0 twice. -/
def mUnit : Model Nat := ⟨fun _ => [0, 0]⟩

/-- The aggregate the script computes on `dfOk` with one model named `lr`. -/
def uniteOkOut : DataFrame Nat :=
  ⟨[⟨"Time", [1, 2]⟩, ⟨"ID", [3, 4]⟩, ⟨"Umidade", [5, 6]⟩,
    ⟨"lr_prediction_label", [0, 0]⟩]⟩

/-- The aggregate the script computes on `df5` with models named `LR`, `RF`. -/
def df5Out : DataFrame Nat :=
  ⟨[⟨"ID", [1, 2, 3, 4, 5]⟩, ⟨"Umidade", [9, 8, 7, 6, 5]⟩,
    ⟨"LR_prediction_label", [0, 0, 0, 0, 0]⟩,
    ⟨"RF_prediction_label", [0, 0, 0, 0, 0]⟩]⟩

/-- A two-row frame shaped like the script's data: identifiers and a target,
no column name containing `"predic"`. -/
def dfOk : DataFrame Nat :=
  ⟨[⟨"Time", [1, 2]⟩, ⟨"ID", [3, 4]⟩, ⟨"Umidade", [5, 6]⟩]⟩

/-- A two-row frame that carries a column whose name contains `"predic"`. -/
def dfPred : DataFrame Nat :=
  ⟨[⟨"ID", [1, 2]⟩, ⟨"Umidade", [7, 8]⟩, ⟨"predicted_old", [3, 4]⟩]⟩

/-- The five-row scenario frame: identifier `ID`, target `Umidade`. -/
def df5 : DataFrame Nat :=
  ⟨[⟨"ID", [1, 2, 3, 4, 5]⟩, ⟨"Umidade", [9, 8, 7, 6, 5]⟩]⟩

/-- A small concrete prediction table of strings, for the export round trip. -/
def dfCsv : DataFrame String :=
  ⟨[⟨"ID", ["1", "2"]⟩, ⟨"Umidade", ["0.31", "0.42"]⟩,
    ⟨"lr_prediction_label", ["0.30", "0.40"]⟩]⟩

end Modelagem

namespace Modelagem

/-! # Theorems -/

theorem containsSub_cons {needle : List Char} {b : Char} {bs : List Char}
    (h : containsSub needle bs = true) : containsSub needle (b :: bs) = true := by
  simp [containsSub, h]

theorem containsSub_append_left {needle b : List Char} (a : List Char)
    (h : containsSub needle b = true) : containsSub needle (a ++ b) = true := by
  induction a with
  | nil => simpa using h
  | cons x xs ih => exact containsSub_cons ih

theorem get_cons_eraseIdx_perm (l : List α) (i : Fin l.length) :
    (l.get i :: l.eraseIdx i).Perm l := by
  have hdrop : l.drop i = l.get i :: l.drop (i + 1) :=
    List.drop_eq_getElem_cons i.isLt
  have herase : l.eraseIdx i = l.take i ++ l.drop (i + 1) :=
    List.eraseIdx_eq_take_drop_succ l i
  rw [herase]
  have h3 : l.take i ++ (l.get i :: l.drop (i + 1)) = l := by
    rw [← hdrop]; exact l.take_append_drop i
  have h4 : List.Perm (l.get i :: (l.take i ++ l.drop (i + 1)))
      (l.take i ++ (l.get i :: l.drop (i + 1))) := List.perm_middle.symm
  exact h4.trans (by rw [h3])

theorem shuffleGo_perm :
    ∀ (fuel s : Nat) (xs : List α), xs.length ≤ fuel → (shuffleGo fuel s xs).Perm xs := by
  intro fuel
  induction fuel with
  | zero =>
    intro s xs h
    have : xs = [] := List.length_eq_zero.mp (Nat.le_zero.mp h)
    simp [this, shuffleGo]
  | succ n ih =>
    intro s xs h
    match xs with
    | [] => simp [shuffleGo]
    | y :: ys =>
      have hlen : ((y :: ys).eraseIdx (lcg s % (y :: ys).length)).length ≤ n := by
        have := List.length_eraseIdx_of_lt (l := y :: ys)
          (i := lcg s % (y :: ys).length) (Nat.mod_lt _ (Nat.succ_pos _))
        omega
      have hperm := ih (lcg s) _ hlen
      show List.Perm ((y :: ys).get ⟨lcg s % (y :: ys).length, Nat.mod_lt _ (Nat.succ_pos _)⟩ ::
          shuffleGo n (lcg s) ((y :: ys).eraseIdx (lcg s % (y :: ys).length))) (y :: ys)
      exact (List.Perm.cons _ hperm).trans (get_cons_eraseIdx_perm _ _)

theorem shuffleRows_perm (seed : Nat) (xs : List α) : (shuffleRows seed xs).Perm xs :=
  shuffleGo_perm _ _ _ (Nat.le_refl _)

theorem train_test_split_perm (data : List α) (seed : Nat) :
    ((train_test_split data seed).1 ++ (train_test_split data seed).2).Perm data := by
  have hsh := shuffleRows_perm seed data
  have hcomm : (((shuffleRows seed data).drop ((3 * data.length + 9) / 10)) ++
      ((shuffleRows seed data).take ((3 * data.length + 9) / 10))).Perm
      (shuffleRows seed data) :=
    List.perm_append_comm.trans (by rw [List.take_append_drop])
  exact hcomm.trans hsh

/-- C1: the splitter partitions the rows: train and test together are a
permutation of the input (every row in exactly one subset), their sizes sum to
the input size, on duplicate-free input the two subsets are disjoint, and a
100-row input yields 70 train rows and 30 test rows. -/
theorem train_test_split_partition (data : List α) (seed : Nat) :
    ((train_test_split data seed).1 ++ (train_test_split data seed).2).Perm data ∧
    (train_test_split data seed).1.length + (train_test_split data seed).2.length =
      data.length ∧
    (data.Nodup → ∀ x ∈ (train_test_split data seed).2,
      x ∉ (train_test_split data seed).1) ∧
    (data.length = 100 →
      (train_test_split data seed).1.length = 70 ∧
      (train_test_split data seed).2.length = 30) := by
  have hsh := shuffleRows_perm seed data
  have hlen : (shuffleRows seed data).length = data.length := hsh.length_eq
  refine ⟨train_test_split_perm data seed, ?_, ?_, ?_⟩
  · show ((shuffleRows seed data).drop ((3 * data.length + 9) / 10)).length +
      ((shuffleRows seed data).take ((3 * data.length + 9) / 10)).length = data.length
    rw [List.length_drop, List.length_take, hlen]
    omega
  · intro hnd x hx hx'
    have hshnd : (shuffleRows seed data).Nodup := hsh.nodup_iff.mpr hnd
    have hdisj := List.disjoint_take_drop hshnd
      (le_refl ((3 * data.length + 9) / 10))
    exact hdisj hx hx'
  · intro h100
    constructor
    · show ((shuffleRows seed data).drop ((3 * data.length + 9) / 10)).length = 70
      rw [List.length_drop, hlen, h100]
    · show ((shuffleRows seed data).take ((3 * data.length + 9) / 10)).length = 30
      rw [List.length_take, hlen, h100]
      omega

/-- C1 witness: the 100-row scenario, seed 42 — duplicate-free input, 70 train
rows, 30 test rows, and no shared row. -/
theorem train_test_split_partition_witness :
    (List.range 100).Nodup ∧ (List.range 100).length = 100 ∧
    (train_test_split (List.range 100) 42).1.length = 70 ∧
    (train_test_split (List.range 100) 42).2.length = 30 ∧
    (∀ x ∈ (train_test_split (List.range 100) 42).2,
      x ∉ (train_test_split (List.range 100) 42).1) := by
  have h := train_test_split_partition (List.range 100) 42
  have hnd : (List.range 100).Nodup := List.nodup_range 100
  have hlen : (List.range 100).length = 100 := List.length_range 100
  exact ⟨hnd, hlen, (h.2.2.2 hlen).1, (h.2.2.2 hlen).2, h.2.2.1 hnd⟩

/-- C4: the split is a pure function of the dataset and the seed: runs on equal
data with the same seed assign the rows identically, and in particular produce
the same test subset. -/
theorem train_test_split_deterministic (d₁ d₂ : List α) (seed : Nat) (h : d₁ = d₂) :
    train_test_split d₁ seed = train_test_split d₂ seed ∧
    (train_test_split d₁ seed).2 = (train_test_split d₂ seed).2 := by
  subst h; exact ⟨rfl, rfl⟩

/-- C4 witness: two runs at seed 42 on the same 100 identifiers give the same
split. -/
theorem train_test_split_deterministic_witness :
    train_test_split (List.range 100) 42 = train_test_split (List.range 100) 42 ∧
    (train_test_split (List.range 100) 42).2 = (train_test_split (List.range 100) 42).2 :=
  train_test_split_deterministic (List.range 100) (List.range 100) 42 rfl

/-! ## Aggregator lemmas -/

theorem likePred_label : strContains "predic" "prediction_label" = true := by decide

theorem likePred_rename (nm : String) :
    strContains "predic" (nm ++ "_" ++ "prediction_label") = true := by
  show containsSub "predic".data (nm ++ "_" ++ "prediction_label").data = true
  rw [String.data_append, String.data_append, List.append_assoc]
  exact containsSub_append_left _ (by decide)

theorem getCol?_name {df : DataFrame α} {n : String} {c : Column α}
    (h : df.getCol? n = some c) : c.name = n ∧ c ∈ df.cols := by
  refine ⟨?_, List.mem_of_find?_eq_some h⟩
  have := List.find?_some h
  simpa using this

theorem getCols?_spec {df : DataFrame α} :
    ∀ {names : List String} {cs : List (Column α)}, df.getCols? names = some cs →
      cs.map Column.name = names ∧ ∀ c ∈ cs, c ∈ df.cols := by
  intro names
  induction names with
  | nil =>
    intro cs h
    have : cs = [] := by simpa [DataFrame.getCols?] using h.symm
    subst this
    simp
  | cons n ns ih =>
    intro cs h
    rw [DataFrame.getCols?] at h
    cases hc : df.getCol? n with
    | none => rw [hc] at h; exact absurd h (by simp)
    | some c =>
      cases hcs : df.getCols? ns with
      | none => rw [hc, hcs] at h; exact absurd h (by simp)
      | some rest =>
        rw [hc, hcs] at h
        have hcase : cs = c :: rest := by simpa using h.symm
        subst hcase
        obtain ⟨hn, hmem⟩ := getCol?_name hc
        obtain ⟨hns, hmems⟩ := ih hcs
        refine ⟨by simp [hn, hns], ?_⟩
        intro x hx
        rcases List.mem_cons.mp hx with hx | hx
        · exact hx ▸ hmem
        · exact hmems x hx

theorem extract_pred_classe_noPred {data : DataFrame α} (h : NoPredCols data)
    (m : Model α) (nm : String) :
    (extract_pred_classe m data nm).cols =
      [⟨nm ++ "_" ++ "prediction_label", m.predictRow data⟩] := by
  have hnil : data.cols.filter (fun c => strContains "predic" c.name) = [] :=
    List.filter_eq_nil_iff.mpr (by intro c hc; simp [h c hc])
  show ((data.cols ++ [Column.mk "prediction_label" (m.predictRow data)]).filter
      (fun (c : Column α) => strContains "predic" c.name)).map
      (fun (c : Column α) => Column.mk (nm ++ "_" ++ c.name) c.values) =
      [Column.mk (nm ++ "_" ++ "prediction_label") (m.predictRow data)]
  rw [List.filter_append, hnil]
  simp [List.filter_cons, likePred_label]

theorem predFrames?_le {data : DataFrame α} :
    ∀ {models : List (Model α)} {names : List String} {frames : List (DataFrame α)},
      predFrames? data models names = some frames → models.length ≤ names.length := by
  intro models
  induction models with
  | nil => intro names frames _; exact Nat.zero_le _
  | cons m ms ih =>
    intro names frames h
    cases names with
    | nil => exact absurd h (by simp [predFrames?])
    | cons nm nms =>
      rw [predFrames?] at h
      cases hrest : predFrames? data ms nms with
      | none => rw [hrest] at h; exact absurd h (by simp)
      | some rest =>
        have := ih hrest
        simp only [List.length_cons]
        omega

theorem predFrames?_flatten {data : DataFrame α} (h : NoPredCols data) :
    ∀ {models : List (Model α)} {names : List String} {frames : List (DataFrame α)},
      predFrames? data models names = some frames →
      (frames.map DataFrame.cols).flatten =
        List.zipWith (fun m nm =>
          Column.mk (nm ++ "_" ++ "prediction_label") (m.predictRow data)) models names := by
  intro models
  induction models with
  | nil =>
    intro names frames hf
    have : frames = [] := by
      cases names <;> simpa [predFrames?] using hf.symm
    simp [this]
  | cons m ms ih =>
    intro names frames hf
    cases names with
    | nil => exact absurd hf (by simp [predFrames?])
    | cons nm nms =>
      rw [predFrames?] at hf
      cases hrest : predFrames? data ms nms with
      | none => rw [hrest] at hf; exact absurd hf (by simp)
      | some rest =>
        rw [hrest] at hf
        have hcase : frames = extract_pred_classe m data nm :: rest := by
          simpa using hf.symm
        subst hcase
        simp only [List.map_cons, List.flatten_cons, List.zipWith_cons_cons]
        rw [extract_pred_classe_noPred h, ih hrest]
        rfl

theorem zipWith_mem {f : α → β → γ} :
    ∀ {l : List α} {m : List β} {c : γ}, c ∈ List.zipWith f l m →
      ∃ a ∈ l, ∃ b ∈ m, c = f a b := by
  intro l
  induction l with
  | nil => intro m c hc; simp at hc
  | cons a as ih =>
    intro m c hc
    cases m with
    | nil => simp at hc
    | cons b bs =>
      rw [List.zipWith_cons_cons] at hc
      rcases List.mem_cons.mp hc with hc | hc
      · exact ⟨a, by simp, b, by simp, hc⟩
      · obtain ⟨a', ha', b', hb', hcc⟩ := ih hc
        exact ⟨a', by simp [ha'], b', by simp [hb'], hcc⟩

theorem zipWith_snd_map (g : β → γ) :
    ∀ (l : List α) (m : List β), l.length = m.length →
      List.zipWith (fun _ b => g b) l m = m.map g := by
  intro l
  induction l with
  | nil =>
    intro m h
    have : m = [] := List.length_eq_zero.mp h.symm
    simp [this]
  | cons a as ih =>
    intro m h
    cases m with
    | nil => simp at h
    | cons b bs =>
      simp only [List.zipWith_cons_cons, List.map_cons]
      rw [ih bs (by simpa using h)]

/-- Destructuring a successful `unite_predicts_models` call into its parts. -/
theorem unite_eq_some {models : List (Model α)} {data : DataFrame α} {tgt : String}
    {ids : String ⊕ List String} {names : List String} {out : DataFrame α}
    (hout : unite_predicts_models models data tgt ids names = some out) :
    ∃ idCols tgtCol frames,
      data.getCols? (idList ids) = some idCols ∧
      data.getCol? tgt = some tgtCol ∧
      predFrames? data models names = some frames ∧
      out = ⟨idCols ++ tgtCol :: (frames.map DataFrame.cols).flatten⟩ := by
  rw [unite_predicts_models, DataFrame.selectCols?] at hout
  cases hid : data.getCols? (idList ids) with
  | none => rw [hid] at hout; exact absurd hout (by simp)
  | some idCols =>
    rw [hid] at hout
    cases htg : data.getCol? tgt with
    | none => rw [htg] at hout; exact absurd hout (by simp [Option.map, Option.bind])
    | some tgtCol =>
      rw [htg] at hout
      cases hfr : predFrames? data models names with
      | none => rw [hfr] at hout; exact absurd hout (by simp [Option.map, Option.bind])
      | some frames =>
        rw [hfr] at hout
        refine ⟨idCols, tgtCol, frames, rfl, rfl, rfl, ?_⟩
        have : some (DataFrame.mk (idCols ++ tgtCol ::
            (frames.map DataFrame.cols).flatten)) = some out := by
          simpa [Option.map, Option.bind] using hout
        exact (Option.some.inj this).symm

theorem nrows_eq_of_rect {df : DataFrame α} {n : Nat} (hrect : df.Rect n)
    (hne : df.cols ≠ []) : df.nrows = n := by
  cases hd : df.cols with
  | nil => exact absurd hd hne
  | cons c cs =>
    have := hrect c (by rw [hd]; exact List.mem_cons_self c cs)
    simp [DataFrame.nrows, hd, this]

/-- The column names of a successful aggregation: the requested identifiers,
the target, then one renamed prediction label per (model, name) pair. -/
theorem unite_colNames {models : List (Model α)} {data : DataFrame α} {tgt : String}
    {ids : String ⊕ List String} {names : List String} {out : DataFrame α}
    (h : NoPredCols data)
    (hout : unite_predicts_models models data tgt ids names = some out) :
    out.colNames = idList ids ++ tgt ::
      List.zipWith (fun _ nm => nm ++ "_" ++ "prediction_label") models names := by
  obtain ⟨idCols, tgtCol, frames, hid, htg, hfr, rfl⟩ := unite_eq_some hout
  show (idCols ++ tgtCol :: (frames.map DataFrame.cols).flatten).map Column.name = _
  rw [predFrames?_flatten h hfr, List.map_append, List.map_cons,
    (getCols?_spec hid).1, (getCol?_name htg).1, List.map_zipWith]

theorem rename_label_inj :
    Function.Injective (fun nm : String => nm ++ "_" ++ "prediction_label") := by
  intro a b hab
  have hab' : a ++ "_" ++ "prediction_label" = b ++ "_" ++ "prediction_label" := hab
  have hd : (a ++ "_" ++ "prediction_label").data = (b ++ "_" ++ "prediction_label").data := by
    rw [hab']
  rw [String.data_append, String.data_append, String.data_append, String.data_append] at hd
  have h1 := List.append_cancel_right hd
  have h2 := List.append_cancel_right h1
  cases a; cases b; exact congrArg String.mk h2

/-- C2 (amended): when no input column name contains the marker substring
`"predic"`, a successful aggregation has exactly
`len(id_columns) + 1 + len(models)` columns, is rectangular like its input,
and has the input's row count. -/
theorem unite_predicts_models_shape {models : List (Model α)} {data : DataFrame α}
    {tgt : String} {ids : String ⊕ List String} {names : List String}
    {out : DataFrame α} {n : Nat} (h : NoPredCols data)
    (hout : unite_predicts_models models data tgt ids names = some out)
    (hrect : data.Rect n) (hm : ∀ m ∈ models, (m.predictRow data).length = n) :
    out.ncols = (idList ids).length + 1 + models.length ∧
    out.Rect n ∧ out.nrows = data.nrows := by
  obtain ⟨idCols, tgtCol, frames, hid, htg, hfr, rfl⟩ := unite_eq_some hout
  have hflat := predFrames?_flatten h hfr
  have hle := predFrames?_le hfr
  have hidlen : idCols.length = (idList ids).length := by
    rw [← (getCols?_spec hid).1, List.length_map]
  have hidmem := (getCols?_spec hid).2
  have htgt := getCol?_name htg
  have hdatane : data.cols ≠ [] := by
    intro hnil
    rw [hnil] at htgt
    exact absurd htgt.2 (List.not_mem_nil tgtCol)
  have hrectOut : (DataFrame.mk (idCols ++ tgtCol ::
      (frames.map DataFrame.cols).flatten)).Rect n := by
    intro c hc
    rcases List.mem_append.mp hc with hc | hc
    · exact hrect c (hidmem c hc)
    · rcases List.mem_cons.mp hc with hc | hc
      · exact hc ▸ hrect tgtCol htgt.2
      · rw [hflat] at hc
        obtain ⟨m, hmm, nm, _, rfl⟩ := zipWith_mem hc
        exact hm m hmm
  refine ⟨?_, hrectOut, ?_⟩
  · show (idCols ++ tgtCol :: (frames.map DataFrame.cols).flatten).length = _
    rw [hflat, List.length_append, List.length_cons, List.length_zipWith]
    omega
  · rw [nrows_eq_of_rect hrectOut (by simp), nrows_eq_of_rect hrect hdatane]

/-- C2 witness: a concrete two-row frame, one model, two identifier columns —
4 = 2 + 1 + 1 columns, rectangular, two rows as in the input. -/
theorem unite_predicts_models_shape_witness :
    uniteOkOut.ncols = 2 + 1 + 1 ∧ uniteOkOut.Rect 2 ∧ uniteOkOut.nrows = dfOk.nrows := by
  have hout : unite_predicts_models [mConst] dfOk "Umidade" (Sum.inr ["Time", "ID"])
      ["lr"] = some uniteOkOut := by decide
  have hm : ∀ m ∈ [mConst], (m.predictRow dfOk).length = 2 := by
    intro m hmem
    rw [List.mem_singleton] at hmem
    subst hmem
    decide
  exact unite_predicts_models_shape (by decide) hout (by decide) hm

/-- C2 counterexample: on an input frame carrying a column named
`"predicted_old"`, one identifier, one model, the aggregate has 4 columns,
not `1 + 1 + 1`: the substring filter also keeps the input column. -/
theorem unite_predicts_models_shape_cx :
    (unite_predicts_models [mUnit] dfPred "Umidade" (Sum.inr ["ID"]) ["LR"]).map
      DataFrame.ncols = some 4 ∧ (4 : Nat) ≠ 1 + 1 + 1 := by decide

/-- C3 (amended): when no input column name contains `"predic"` and one name is
supplied per model, the aggregate's columns are, in order, the identifiers as
given, the observed target, then one `name + "_" + "prediction_label"` column
per model in model order; its row count is the input's. -/
theorem unite_predicts_models_column_order {models : List (Model α)}
    {data : DataFrame α} {tgt : String} {ids : String ⊕ List String}
    {names : List String} {out : DataFrame α} (h : NoPredCols data)
    (hlen : names.length = models.length)
    (hout : unite_predicts_models models data tgt ids names = some out) :
    out.colNames = idList ids ++ tgt ::
      names.map (fun nm => nm ++ "_" ++ "prediction_label") ∧
    (∀ n, data.Rect n → out.nrows = n) := by
  constructor
  · rw [unite_colNames h hout,
      zipWith_snd_map (fun nm : String => nm ++ "_" ++ "prediction_label") models names
        hlen.symm]
  · intro n hrect
    obtain ⟨idCols, tgtCol, frames, hid, htg, hfr, rfl⟩ := unite_eq_some hout
    have hidmem := (getCols?_spec hid).2
    have htgt := getCol?_name htg
    cases hi : idCols with
    | nil =>
      show tgtCol.values.length = n
      exact hrect tgtCol htgt.2
    | cons c0 rest =>
      show c0.values.length = n
      exact hrect c0 (hidmem c0 (by rw [hi]; exact List.mem_cons_self c0 rest))

/-- C3 witness: the 5-row scenario — models named `LR` and `RF`, identifier
`ID`, target `Umidade` — gives 5 rows and the four columns in order. -/
theorem unite_predicts_models_column_order_witness :
    df5Out.colNames = ["ID", "Umidade", "LR_prediction_label", "RF_prediction_label"] ∧
    df5Out.nrows = 5 := by
  have hout : unite_predicts_models [mConst, mConst] df5 "Umidade" (Sum.inr ["ID"])
      ["LR", "RF"] = some df5Out := by decide
  have h := unite_predicts_models_column_order (by decide) (by decide) hout
  exact ⟨by rw [h.1]; rfl, h.2 5 (by decide)⟩

/-- C3 counterexample: with an input column named `"predicted_old"`, the
aggregate's columns are not the claimed
`identifiers ++ target ++ one column per model`: the stray input column is
renamed and kept too. -/
theorem unite_predicts_models_column_order_cx :
    (unite_predicts_models [mUnit] dfPred "Umidade" (Sum.inr ["ID"]) ["LR"]).map
      DataFrame.colNames =
      some ["ID", "Umidade", "LR_predicted_old", "LR_prediction_label"] ∧
    (["ID", "Umidade", "LR_predicted_old", "LR_prediction_label"] :
      List String) ≠ ["ID", "Umidade", "LR_prediction_label"] := by decide

/-- C5: with pairwise-distinct rank-qualified model names (one per model) and
no input column name containing `"predic"`, each model name heads exactly one
prediction column of the aggregate: `name + "_" + "prediction_label"` occurs
exactly once among the output's column names. -/
theorem unite_predicts_models_unique_pred_names {models : List (Model α)}
    {data : DataFrame α} {tgt : String} {ids : String ⊕ List String}
    {names : List String} {out : DataFrame α} {nm : String} (h : NoPredCols data)
    (hlen : names.length = models.length) (hnd : names.Nodup)
    (hout : unite_predicts_models models data tgt ids names = some out)
    (hmem : nm ∈ names) :
    out.colNames.count (nm ++ "_" ++ "prediction_label") = 1 := by
  have hcol : out.colNames = idList ids ++ tgt ::
      names.map (fun s => s ++ "_" ++ "prediction_label") := by
    rw [unite_colNames h hout,
      zipWith_snd_map (fun s : String => s ++ "_" ++ "prediction_label") models names
        hlen.symm]
  obtain ⟨idCols, tgtCol, frames, hid, htg, hfr, houteq⟩ := unite_eq_some hout
  have hkey : strContains "predic" (nm ++ "_" ++ "prediction_label") = true :=
    likePred_rename nm
  have hids : (nm ++ "_" ++ "prediction_label") ∉ idList ids := by
    intro hs
    rw [← (getCols?_spec hid).1] at hs
    obtain ⟨c, hc, heq⟩ := List.mem_map.mp hs
    have hfalse := h c ((getCols?_spec hid).2 c hc)
    rw [heq, hkey] at hfalse
    simp at hfalse
  have htgtne : tgt ≠ nm ++ "_" ++ "prediction_label" := by
    intro heq
    have hfalse := h tgtCol (getCol?_name htg).2
    rw [(getCol?_name htg).1, heq, hkey] at hfalse
    simp at hfalse
  have hcount0 : (idList ids).count (nm ++ "_" ++ "prediction_label") = 0 :=
    List.count_eq_zero.mpr hids
  have hcount1 : (names.map (fun s => s ++ "_" ++ "prediction_label")).count
      (nm ++ "_" ++ "prediction_label") = 1 :=
    List.count_eq_one_of_mem (List.Nodup.map rename_label_inj hnd)
      (List.mem_map.mpr ⟨nm, hmem, rfl⟩)
  have hbeq : (tgt == nm ++ "_" ++ "prediction_label") = false :=
    beq_eq_false_iff_ne.mpr htgtne
  rw [hcol, List.count_append, hcount0, List.count_cons, hcount1, hbeq]
  simp

/-- C5 witness: in the two-model scenario with names `LR` and `RF`, the name
`LR` heads exactly one column of the aggregate. -/
theorem unite_predicts_models_unique_pred_names_witness :
    df5Out.colNames.count ("LR" ++ "_" ++ "prediction_label") = 1 := by
  have hout : unite_predicts_models [mConst, mConst] df5 "Umidade" (Sum.inr ["ID"])
      ["LR", "RF"] = some df5Out := by decide
  exact unite_predicts_models_unique_pred_names (by decide) (by decide) (by decide)
    hout (by decide)

/-- C9: a bare string passed as `col_name_id` is wrapped into the one-element
list, so the call equals the call on `[col_name_id]`. -/
theorem unite_predicts_models_string_id (models : List (Model α)) (data : DataFrame α)
    (tgt s : String) (names : List String) :
    unite_predicts_models models data tgt (Sum.inl s) names =
      unite_predicts_models models data tgt (Sum.inr [s]) names := rfl

/-- C10: `extract_pred_classe` keeps exactly the prediction-output columns
whose name contains `"predic"`, each renamed to `name_model + "_" + old name`
with its values untouched; every other column is excluded. -/
theorem extract_pred_classe_exact (m : Model α) (data : DataFrame α) (nm : String)
    (c : Column α) :
    c ∈ (extract_pred_classe m data nm).cols ↔
      ∃ c0 ∈ (predict_model m data).cols,
        strContains "predic" c0.name = true ∧
        c = ⟨nm ++ "_" ++ c0.name, c0.values⟩ := by
  show c ∈ ((predict_model m data).cols.filter
      (fun (c : Column α) => strContains "predic" c.name)).map
      (fun (c : Column α) => Column.mk (nm ++ "_" ++ c.name) c.values) ↔ _
  constructor
  · intro hc
    obtain ⟨c0, hc0, heq⟩ := List.mem_map.mp hc
    obtain ⟨hmem, hp⟩ := List.mem_filter.mp hc0
    exact ⟨c0, hmem, hp, heq.symm⟩
  · rintro ⟨c0, hmem, hp, rfl⟩
    exact List.mem_map.mpr ⟨c0, List.mem_filter.mpr ⟨hmem, hp⟩, rfl⟩

/-! ## Export lemmas: joining and splitting undo each other, rows and columns
transpose back. -/

theorem noSep_splitSep {c : Char} : ∀ {a : List Char}, c ∉ a → splitSep c a = [a] := by
  intro a
  induction a with
  | nil => intro _; rfl
  | cons x xs ih =>
    intro h
    have hx : ¬ x = c := fun hxc => h (by rw [hxc]; exact List.mem_cons_self c xs)
    have hxs : c ∉ xs := fun hc => h (List.mem_cons_of_mem x hc)
    rw [splitSep, if_neg hx, ih hxs]

theorem splitSep_append {c : Char} :
    ∀ {a : List Char} (b : List Char), c ∉ a →
      splitSep c (a ++ c :: b) = a :: splitSep c b := by
  intro a
  induction a with
  | nil =>
    intro b _
    show splitSep c (c :: b) = [] :: splitSep c b
    rw [splitSep, if_pos rfl]
  | cons x xs ih =>
    intro b h
    have hx : ¬ x = c := fun hxc => h (by rw [hxc]; exact List.mem_cons_self c xs)
    have hxs : c ∉ xs := fun hc => h (List.mem_cons_of_mem x hc)
    show splitSep c (x :: (xs ++ c :: b)) = (x :: xs) :: splitSep c b
    rw [splitSep, if_neg hx, ih b hxs]

theorem splitSep_joinSep {c : Char} :
    ∀ {xss : List (List Char)}, xss ≠ [] → (∀ x ∈ xss, c ∉ x) →
      splitSep c (joinSep c xss) = xss := by
  intro xss
  induction xss with
  | nil => intro h _; exact absurd rfl h
  | cons x xs ih =>
    intro _ h
    cases xs with
    | nil =>
      show splitSep c x = [x]
      exact noSep_splitSep (h x (List.mem_cons_self x []))
    | cons y r =>
      show splitSep c (x ++ c :: joinSep c (y :: r)) = x :: (y :: r)
      rw [splitSep_append _ (h x (List.mem_cons_self x (y :: r)))]
      rw [ih (by simp) (fun z hz => h z (List.mem_cons_of_mem x hz))]

theorem notMem_joinSep {d c : Char} (hne : d ≠ c) :
    ∀ {xss : List (List Char)}, (∀ x ∈ xss, d ∉ x) → d ∉ joinSep c xss := by
  intro xss
  induction xss with
  | nil => intro _; simp [joinSep]
  | cons x xs ih =>
    intro h
    cases xs with
    | nil =>
      show d ∉ x
      exact h x (List.mem_cons_self x [])
    | cons y r =>
      show d ∉ x ++ c :: joinSep c (y :: r)
      intro hmem
      rcases List.mem_append.mp hmem with hmem | hmem
      · exact h x (List.mem_cons_self x (y :: r)) hmem
      · rcases List.mem_cons.mp hmem with hmem | hmem
        · exact hne hmem
        · exact ih (fun z hz => h z (List.mem_cons_of_mem x hz)) hmem

theorem rowsGo_length : ∀ (n : Nat) (cols : List (List α)), (rowsGo n cols).length = n := by
  intro n
  induction n with
  | zero => intro cols; rfl
  | succ n ih => intro cols; show (rowsGo n (cols.map (·.tail))).length + 1 = n + 1; rw [ih]

theorem filterMap_head?_eq (d : α) :
    ∀ (cols : List (List α)), (∀ l ∈ cols, l ≠ []) →
      cols.filterMap (fun l => l.head?) = cols.map (fun l => l.headD d) := by
  intro cols
  induction cols with
  | nil => intro _; rfl
  | cons l ls ih =>
    intro h
    cases hl : l with
    | nil => exact absurd hl (h l (List.mem_cons_self l ls))
    | cons a t =>
      subst hl
      have ihh := ih (fun x hx => h x (List.mem_cons_of_mem _ hx))
      simp [List.filterMap_cons, ihh]

theorem filterMap_head?_length :
    ∀ (cols : List (List α)), (∀ l ∈ cols, l ≠ []) →
      (cols.filterMap (fun l => l.head?)).length = cols.length := by
  intro cols
  induction cols with
  | nil => intro _; rfl
  | cons l ls ih =>
    intro h
    cases hl : l with
    | nil => exact absurd hl (h l (List.mem_cons_self l ls))
    | cons a t =>
      subst hl
      have ihh := ih (fun x hx => h x (List.mem_cons_of_mem _ hx))
      simp [List.filterMap_cons, ihh]

theorem rowsGo_mem :
    ∀ (n : Nat) (cols : List (List α)) (r : List α), r ∈ rowsGo n cols →
      ∀ x ∈ r, ∃ l ∈ cols, x ∈ l := by
  intro n
  induction n with
  | zero => intro cols r hr; simp [rowsGo] at hr
  | succ n ih =>
    intro cols r hr x hx
    rcases List.mem_cons.mp hr with hr | hr
    · subst hr
      obtain ⟨l, hl, hheadx⟩ := List.mem_filterMap.mp hx
      exact ⟨l, hl, List.mem_of_mem_head? hheadx⟩
    · obtain ⟨l, hl, hxl⟩ := ih (cols.map (·.tail)) r hr x hx
      obtain ⟨l0, hl0, rfl⟩ := List.mem_map.mp hl
      exact ⟨l0, hl0, List.mem_of_mem_tail hxl⟩

theorem rowsGo_row_length :
    ∀ (n : Nat) (cols : List (List α)), (∀ l ∈ cols, l.length = n) →
      ∀ r ∈ rowsGo n cols, r.length = cols.length := by
  intro n
  induction n with
  | zero => intro cols _ r hr; simp [rowsGo] at hr
  | succ n ih =>
    intro cols h r hr
    have hne : ∀ l ∈ cols, l ≠ [] := by
      intro l hl hnil
      have := h l hl
      rw [hnil] at this
      simp at this
    rcases List.mem_cons.mp hr with hr | hr
    · subst hr
      exact filterMap_head?_length cols hne
    · have htails : ∀ l ∈ cols.map (·.tail), l.length = n := by
        intro l hl
        obtain ⟨l0, hl0, rfl⟩ := List.mem_map.mp hl
        have := h l0 hl0
        rw [List.length_tail]
        omega
      rw [ih (cols.map (·.tail)) htails r hr, List.length_map]

theorem rowsGo_ne_nil {n : Nat} {cols : List (List α)} (h : ∀ l ∈ cols, l.length = n)
    (hne : cols ≠ []) : ∀ r ∈ rowsGo n cols, r ≠ [] := by
  intro r hr hnil
  have hlen := rowsGo_row_length n cols h r hr
  rw [hnil] at hlen
  cases hcols : cols with
  | nil => exact absurd hcols hne
  | cons l ls => rw [hcols] at hlen; simp at hlen

theorem rowsGo_map_getD (d : α) :
    ∀ (n : Nat) (cols : List (List α)), (∀ l ∈ cols, l.length = n) →
      ∀ (j : Nat), j < cols.length →
        (rowsGo n cols).map (fun r => r.getD j d) = cols.getD j [] := by
  intro n
  induction n with
  | zero =>
    intro cols h j hj
    have hmem : cols.getD j [] ∈ cols := by
      rw [List.getD_eq_getElem cols [] hj]
      exact List.getElem_mem hj
    have hnil : cols.getD j [] = [] := List.length_eq_zero.mp (h _ hmem)
    exact hnil.symm
  | succ n ih =>
    intro cols h j hj
    have hne : ∀ l ∈ cols, l ≠ [] := by
      intro l hl hnil
      have := h l hl
      rw [hnil] at this
      simp at this
    have htails_len : ∀ l ∈ cols.map (·.tail), l.length = n := by
      intro l hl
      obtain ⟨l0, hl0, rfl⟩ := List.mem_map.mp hl
      have := h l0 hl0
      rw [List.length_tail]
      omega
    have htails_j : j < (cols.map (·.tail)).length := by simpa using hj
    have ihx := ih (cols.map (·.tail)) htails_len j htails_j
    show (cols.filterMap (·.head?)).getD j d ::
        (rowsGo n (cols.map (·.tail))).map (fun r => r.getD j d) = cols.getD j []
    rw [ihx, filterMap_head?_eq d cols hne]
    rw [List.getD_eq_getElem (cols.map (fun l => l.headD d)) d (by simpa using hj),
      List.getD_eq_getElem (cols.map (·.tail)) [] htails_j,
      List.getD_eq_getElem cols [] hj]
    rw [List.getElem_map, List.getElem_map]
    have hnej : cols[j] ≠ [] := hne _ (List.getElem_mem hj)
    cases hc : cols[j] with
    | nil => exact absurd hc hnej
    | cons a t => rfl

theorem rowsOf_cells {df : DataFrame String} (hsafe : CsvSafe df) :
    ∀ r ∈ rowsOf df, ∀ x ∈ r, ';' ∉ x ∧ '\n' ∉ x := by
  intro r hr x hx
  obtain ⟨l, hl, hxl⟩ := rowsGo_mem df.nrows _ r hr x hx
  obtain ⟨c, hc, rfl⟩ := List.mem_map.mp hl
  obtain ⟨v, hv, rfl⟩ := List.mem_map.mp hxl
  exact hsafe.2 c hc v hv

theorem csv_lines {df : DataFrame String} (hsafe : CsvSafe df) :
    splitSep '\n' (to_csv df).data =
      joinSep ';' (df.cols.map (fun c => c.name.data)) ::
        (rowsOf df).map (joinSep ';') := by
  show splitSep '\n' (joinSep '\n' (joinSep ';' (df.cols.map (fun c => c.name.data)) ::
    (rowsOf df).map (joinSep ';'))) = _
  apply splitSep_joinSep (by simp)
  intro x hx
  rcases List.mem_cons.mp hx with hx | hx
  · subst hx
    apply notMem_joinSep (by decide)
    intro nmd hnmd
    obtain ⟨c, hc, rfl⟩ := List.mem_map.mp hnmd
    exact (hsafe.1 c hc).2
  · obtain ⟨r, hr, rfl⟩ := List.mem_map.mp hx
    apply notMem_joinSep (by decide)
    intro cell hcell
    exact (rowsOf_cells hsafe r hr cell hcell).2

theorem csv_header {df : DataFrame String} (hsafe : CsvSafe df) (hne : df.cols ≠ []) :
    splitSep ';' (joinSep ';' (df.cols.map (fun c => c.name.data))) =
      df.cols.map (fun c => c.name.data) := by
  apply splitSep_joinSep (by simpa using hne)
  intro x hx
  obtain ⟨c, hc, rfl⟩ := List.mem_map.mp hx
  exact (hsafe.1 c hc).1

theorem cols_data_length {df : DataFrame String} {n : Nat} (hrect : df.Rect n)
    (hne : df.cols ≠ []) :
    ∀ l ∈ df.cols.map (fun c => c.values.map String.data), l.length = df.nrows := by
  intro l hl
  obtain ⟨c, hc, rfl⟩ := List.mem_map.mp hl
  rw [List.length_map, hrect c hc, nrows_eq_of_rect hrect hne]

theorem csv_rows {df : DataFrame String} {n : Nat} (hrect : df.Rect n)
    (hsafe : CsvSafe df) (hne : df.cols ≠ []) :
    ((rowsOf df).map (joinSep ';')).map (splitSep ';') = rowsOf df := by
  rw [List.map_map]
  have hid : ∀ r ∈ rowsOf df, (splitSep ';' ∘ joinSep ';') r = id r := by
    intro r hr
    show splitSep ';' (joinSep ';' r) = r
    apply splitSep_joinSep
    · exact rowsGo_ne_nil (cols_data_length hrect hne) (by simpa using hne) r hr
    · intro x hx
      exact (rowsOf_cells hsafe r hr x hx).1
  rw [List.map_congr_left hid, List.map_id]

/-- C6: the exporter writes to the two paths built from the folder name and the
target-derived suffix; the written text is one header line and one line per
row, with semicolon-separated fields: the header splits back into exactly the
column names (no synthetic index column), there are `nrows` data lines, and
every data line carries exactly `ncols` fields. -/
theorem exporter_format (df : DataFrame String) (n : Nat) (hrect : df.Rect n)
    (hsafe : CsvSafe df) (hne : df.cols ≠ []) :
    test_path = "./resultados/u10_u60/test_predict_week_Umidade.csv" ∧
    train_path = "./resultados/u10_u60/train_predict_week_Umidade.csv" ∧
    splitSep '\n' (to_csv df).data =
      joinSep ';' (df.cols.map (fun c => c.name.data)) ::
        (rowsOf df).map (joinSep ';') ∧
    splitSep ';' (joinSep ';' (df.cols.map (fun c => c.name.data))) =
      df.cols.map (fun c => c.name.data) ∧
    (rowsOf df).length = df.nrows ∧
    (∀ r ∈ rowsOf df, r.length = df.ncols) := by
  refine ⟨rfl, rfl, csv_lines hsafe, csv_header hsafe hne, rowsGo_length _ _, ?_⟩
  intro r hr
  rw [rowsGo_row_length df.nrows _ (cols_data_length hrect hne) r hr, List.length_map]
  rfl

/-- C6 witness: the format statement instantiated at a concrete three-column,
two-row prediction table. -/
theorem exporter_format_witness :
    test_path = "./resultados/u10_u60/test_predict_week_Umidade.csv" ∧
    train_path = "./resultados/u10_u60/train_predict_week_Umidade.csv" ∧
    splitSep '\n' (to_csv dfCsv).data =
      joinSep ';' (dfCsv.cols.map (fun c => c.name.data)) ::
        (rowsOf dfCsv).map (joinSep ';') ∧
    splitSep ';' (joinSep ';' (dfCsv.cols.map (fun c => c.name.data))) =
      dfCsv.cols.map (fun c => c.name.data) ∧
    (rowsOf dfCsv).length = dfCsv.nrows ∧
    (∀ r ∈ rowsOf dfCsv, r.length = dfCsv.ncols) :=
  exporter_format dfCsv 2 (by decide) (by decide) (by decide)

/-- C8: the export round trip — writing a frame as semicolon-delimited text
and reading the text back reproduces the frame exactly, identifiers, observed
target and prediction columns alike. -/
theorem readCsv_to_csv (df : DataFrame String) (n : Nat) (hrect : df.Rect n)
    (hsafe : CsvSafe df) (hne : df.cols ≠ []) :
    readCsv (to_csv df) = some df := by
  have hheader := csv_header hsafe hne
  have hrows := csv_rows hrect hsafe hne
  show parseTable (splitSep '\n' (to_csv df).data) = some df
  rw [csv_lines hsafe]
  show some (DataFrame.mk ((List.range
      (splitSep ';' (joinSep ';' (df.cols.map (fun c => c.name.data)))).length).map
      (fun j => Column.mk
        (String.mk ((splitSep ';' (joinSep ';' (df.cols.map (fun c => c.name.data)))).getD j []))
        ((((rowsOf df).map (joinSep ';')).map (splitSep ';')).map
          (fun r => String.mk (r.getD j [])))))) = some df
  simp only [hheader, hrows]
  refine congrArg some ?_
  show DataFrame.mk _ = DataFrame.mk df.cols
  refine congrArg DataFrame.mk ?_
  apply List.ext_getElem
  · simp
  · intro i h1 h2
    rw [List.getElem_map, List.getElem_range]
    have hi : i < df.cols.length := by simpa using h2
    have hname : (df.cols.map (fun c => c.name.data)).getD i [] = df.cols[i].name.data := by
      rw [List.getD_eq_getElem _ [] (by simpa using hi), List.getElem_map]
    have hvals0 := rowsGo_map_getD ([] : List Char) df.nrows
      (df.cols.map (fun c => c.values.map String.data)) (cols_data_length hrect hne) i
      (by simpa using hi)
    have hvals1 : (df.cols.map (fun c => c.values.map String.data)).getD i [] =
        df.cols[i].values.map String.data := by
      rw [List.getD_eq_getElem _ [] (by simpa using hi), List.getElem_map]
    have hvals : (rowsOf df).map (fun r => String.mk (r.getD i [])) = df.cols[i].values := by
      have hcomp : (rowsOf df).map (fun r => String.mk (r.getD i [])) =
          ((rowsOf df).map (fun r => r.getD i [])).map String.mk := by
        rw [List.map_map]
        rfl
      rw [hcomp]
      rw [show rowsOf df = rowsGo df.nrows (df.cols.map (fun c => c.values.map String.data))
        from rfl]
      rw [hvals0, hvals1, List.map_map]
      have hid : ∀ v ∈ df.cols[i].values, (String.mk ∘ String.data) v = id v :=
        fun v _ => rfl
      rw [List.map_congr_left hid, List.map_id]
    rw [hname, hvals]

/-- C8 witness: the round trip computed on a concrete prediction table. -/
theorem readCsv_to_csv_witness : readCsv (to_csv dfCsv) = some dfCsv :=
  readCsv_to_csv dfCsv 2 (by decide) (by decide) (by decide)

theorem except_bind_ok (a : α) (f : α → Except ε β) :
    Except.bind (Except.ok a) f = f a := rfl

theorem except_bind_error (e : ε) (f : α → Except ε β) :
    Except.bind (Except.error e : Except ε α) f = Except.error e := rfl

/-- C7: a failing stage aborts the run with nothing written, and anything that
is written comes from a run in which load, split, training and *both*
prediction passes completed — each file's content is a fully computed table,
and no file precedes the computation of both prediction tables. -/
theorem runPipeline_no_partial_output (load : Except ε δ)
    (split : δ → Except ε (δ × δ)) (train : δ → Except ε μ)
    (unite : μ → δ → Except ε τ) :
    (∀ e, runPipeline load split train unite = Except.error e →
      filesWritten (runPipeline load split train unite) = []) ∧
    (∀ w ∈ filesWritten (runPipeline load split train unite),
      ∃ d both models rt rtr,
        load = Except.ok d ∧ split d = Except.ok both ∧
        train both.1 = Except.ok models ∧
        unite models both.2 = Except.ok rt ∧ unite models both.1 = Except.ok rtr ∧
        (w = (test_path, rt) ∨ w = (train_path, rtr))) := by
  constructor
  · intro e he
    rw [he]
    rfl
  · intro w hw
    cases hl : load with
    | error e =>
      simp only [runPipeline, hl, except_bind_error] at hw
      simp [filesWritten] at hw
    | ok d =>
      cases hs : split d with
      | error e =>
        simp only [runPipeline, hl, except_bind_ok, hs, except_bind_error] at hw
        simp [filesWritten] at hw
      | ok both =>
        cases ht : train both.1 with
        | error e =>
          simp only [runPipeline, hl, except_bind_ok, hs, ht, except_bind_error] at hw
          simp [filesWritten] at hw
        | ok models =>
          cases hu1 : unite models both.2 with
          | error e =>
            simp only [runPipeline, hl, except_bind_ok, hs, ht, hu1,
              except_bind_error] at hw
            simp [filesWritten] at hw
          | ok rt =>
            cases hu2 : unite models both.1 with
            | error e =>
              simp only [runPipeline, hl, except_bind_ok, hs, ht, hu1, hu2,
                except_bind_error] at hw
              simp [filesWritten] at hw
            | ok rtr =>
              simp only [runPipeline, hl, except_bind_ok, hs, ht, hu1, hu2] at hw
              simp only [filesWritten] at hw
              refine ⟨d, both, models, rt, rtr, rfl, hs, ht, hu1, hu2, ?_⟩
              simpa using hw

/-- C7 witness: a run whose load stage raises leaves no file behind. -/
theorem runPipeline_no_partial_output_witness :
    filesWritten (runPipeline (Except.error 0 : Except Nat Nat)
      (fun d : Nat => (Except.ok (d, d) : Except Nat (Nat × Nat)))
      (fun _ : Nat => (Except.ok 0 : Except Nat Nat))
      (fun _ _ => (Except.ok 0 : Except Nat Nat))) = [] :=
  (runPipeline_no_partial_output (Except.error 0 : Except Nat Nat)
    (fun d : Nat => (Except.ok (d, d) : Except Nat (Nat × Nat)))
    (fun _ : Nat => (Except.ok 0 : Except Nat Nat))
    (fun _ _ => (Except.ok 0 : Except Nat Nat))).1 0 rfl

end Modelagem
